import Mathlib

/-!
Verification of the `seq!` sequence-expansion engine (`src/seq/src/lib.rs`).

The engine operates on `proc_macro2` token streams: trees of groups,
identifiers, punctuation and literals.  We embed that token model and the
expansion functions of `SeqAst` (`expand`, `expand_sections`,
`expand_section`, `expand_range`, `range`, `expand_index`, `expand_tree`)
as executable Lean definitions, and prove the specified properties about
them.  Machine integers (`u64`) are modelled as `Nat` with explicit
`% 2^64` where the source arithmetic can overflow; fallible operations
return `Except`.
-/

namespace Seq

/-- `proc_macro2::Spacing` of a punctuation token. -/
inductive Spacing where
  | alone
  | joint
deriving DecidableEq

/-- `proc_macro2::Delimiter` of a group. -/
inductive Delimiter where
  | parenthesis
  | brace
  | bracket
  | none
deriving DecidableEq

/-- `proc_macro2::TokenTree`: a group carries its delimiter, inner token
stream and span; an identifier its text and span; punctuation its
character, spacing and span; a literal its textual form and span.
Spans are opaque position markers, modelled as `Nat`. -/
inductive TokenTree where
  | group (delim : Delimiter) (stream : List TokenTree) (span : Nat)
  | ident (text : String) (span : Nat)
  | punct (c : Char) (spacing : Spacing) (span : Nat)
  | lit (text : String) (span : Nat)

mutual

/-- Decidable equality for token trees (hand-rolled because of the
nested `List`). -/
def TokenTree.decEq : (a b : TokenTree) → Decidable (a = b)
  | .group d1 s1 p1, .group d2 s2 p2 =>
      if hd : d1 = d2 then
        match TokenTree.decEqList s1 s2 with
        | isTrue hs =>
            if hp : p1 = p2 then isTrue (by rw [hd, hs, hp])
            else isFalse (by intro h; injection h; contradiction)
        | isFalse hs => isFalse (by intro h; injection h; contradiction)
      else isFalse (by intro h; injection h; contradiction)
  | .ident t1 p1, .ident t2 p2 =>
      if h : t1 = t2 ∧ p1 = p2 then isTrue (by rw [h.1, h.2])
      else isFalse (by intro he; injection he; exact h ⟨by assumption, by assumption⟩)
  | .punct c1 s1 p1, .punct c2 s2 p2 =>
      if h : c1 = c2 ∧ s1 = s2 ∧ p1 = p2 then isTrue (by rw [h.1, h.2.1, h.2.2])
      else isFalse (by
        intro he; injection he
        exact h ⟨by assumption, by assumption, by assumption⟩)
  | .lit t1 p1, .lit t2 p2 =>
      if h : t1 = t2 ∧ p1 = p2 then isTrue (by rw [h.1, h.2])
      else isFalse (by intro he; injection he; exact h ⟨by assumption, by assumption⟩)
  | .group _ _ _, .ident _ _ => isFalse nofun
  | .group _ _ _, .punct _ _ _ => isFalse nofun
  | .group _ _ _, .lit _ _ => isFalse nofun
  | .ident _ _, .group _ _ _ => isFalse nofun
  | .ident _ _, .punct _ _ _ => isFalse nofun
  | .ident _ _, .lit _ _ => isFalse nofun
  | .punct _ _ _, .group _ _ _ => isFalse nofun
  | .punct _ _ _, .ident _ _ => isFalse nofun
  | .punct _ _ _, .lit _ _ => isFalse nofun
  | .lit _ _, .group _ _ _ => isFalse nofun
  | .lit _ _, .ident _ _ => isFalse nofun
  | .lit _ _, .punct _ _ _ => isFalse nofun

/-- Decidable equality for token streams. -/
def TokenTree.decEqList : (a b : List TokenTree) → Decidable (a = b)
  | [], [] => isTrue rfl
  | [], _ :: _ => isFalse nofun
  | _ :: _, [] => isFalse nofun
  | a :: as, b :: bs =>
      match TokenTree.decEq a b with
      | isTrue h1 =>
          match TokenTree.decEqList as bs with
          | isTrue h2 => isTrue (by rw [h1, h2])
          | isFalse h2 => isFalse (by intro h; injection h; contradiction)
      | isFalse h1 => isFalse (by intro h; injection h; contradiction)

end

instance : DecidableEq TokenTree := TokenTree.decEq

/-- A token stream is an ordered sequence of token trees. -/
abbrev TokenStream := List TokenTree

/-- `syn::LitInt`: the base-10 digit string of the literal together with
its source span (`base10_digits()` / `span()`). -/
structure LitInt where
  digits : String
  span : Nat
deriving DecidableEq

/-- `u64::from_str` on the base-10 digit string, as used by
`LitInt::base10_parse::<u64>`: fails on an empty string, on a
non-digit character, or when the value does not fit in 64 bits; the
error messages are those of Rust's `ParseIntError`. -/
def parseU64 (s : String) : Except String Nat :=
  if s.isEmpty then
    .error "cannot parse integer from empty string"
  else if s.data.all (fun c => c.isDigit) then
    let n := s.data.foldl (fun a c => a * 10 + (c.toNat - 48)) 0
    if n < 2 ^ 64 then .ok n
    else .error "number too large to fit in target type"
  else
    .error "invalid digit found in string"

/-- The errors produced by `SeqAst::range`: a `syn::Error` carrying a span
and a message.  `badIntegerLiteral` is the error propagated from
`base10_parse` (positioned at the literal); `invalidRange` is
`syn::Error::new(self.from.span(), "invalid range")`. -/
inductive SeqError where
  | badIntegerLiteral (span : Nat) (message : String)
  | invalidRange (span : Nat)
deriving DecidableEq

/-- The span carried by a `SeqError`. -/
def SeqError.span : SeqError → Nat
  | .badIntegerLiteral sp _ => sp
  | .invalidRange sp => sp

/-- The message carried by a `SeqError`. -/
def SeqError.message : SeqError → String
  | .badIntegerLiteral _ m => m
  | .invalidRange _ => "invalid range"

/-- `syn::Error::into_compile_error`: renders the error as the token
stream `::core::compile_error! { "<message>" }`, every token spanned to
the error's span. -/
def SeqError.intoCompileError (e : SeqError) : TokenStream :=
  [ .punct ':' .joint e.span, .punct ':' .alone e.span,
    .ident "core" e.span,
    .punct ':' .joint e.span, .punct ':' .alone e.span,
    .ident "compile_error" e.span,
    .punct '!' .alone e.span,
    .group .brace [.lit ("\"" ++ e.message ++ "\"") e.span] e.span ]

/-- `SeqAst`: the parsed macro invocation — binding identifier text,
`from` and `to` integer literals, inclusivity flag, and body token
stream. -/
structure SeqAst where
  ident : String
  fromLit : LitInt
  toLit : LitInt
  inclusive : Bool
  content : TokenStream
deriving DecidableEq

namespace SeqAst

/-- `SeqAst::range`: parse both bounds as `u64` (propagating the parse
error), reject `from > to` with the `"invalid range"` error at the
`from` literal's span, and otherwise return the list of indices of
`from..to` (exclusive) or `from..(to + 1)` (inclusive), where `to + 1`
is computed in `u64` arithmetic (modulo `2^64`).  A Rust `Range` whose
upper bound is not above its lower bound iterates zero times, which
`List.range'` with a truncated-subtraction count reproduces. -/
def range (ast : SeqAst) : Except SeqError (List Nat) :=
  match parseU64 ast.fromLit.digits with
  | .error m => .error (.badIntegerLiteral ast.fromLit.span m)
  | .ok f =>
    match parseU64 ast.toLit.digits with
    | .error m => .error (.badIntegerLiteral ast.toLit.span m)
    | .ok t =>
      if f > t then
        .error (.invalidRange ast.fromLit.span)
      else if ast.inclusive then
        .ok (List.range' f ((t + 1) % 2 ^ 64 - f))
      else
        .ok (List.range' f (t - f))

/-- `SeqAst::expand_index` fused with its helper `expand_tree`: walk the
stream once for index `i`.  Groups are rebuilt around the recursively
expanded interior, keeping delimiter and span; an identifier equal to
the binding is replaced by the unsuffixed decimal literal of `i` at the
identifier's span; any other identifier is checked by lookahead for the
splice pattern `ident ~ binding`, which is rewritten to a single
identifier `<text><i>` (consuming the two lookahead tokens); everything
else passes through unchanged. -/
def expand_index (ast : SeqAst) (i : Nat) : TokenStream → TokenStream
  | [] => []
  | .group d s sp :: rest =>
      .group d (ast.expand_index i s) sp :: ast.expand_index i rest
  | .ident t sp :: rest =>
      if t = ast.ident then
        .lit (toString i) sp :: ast.expand_index i rest
      else
        match rest with
        | .punct c spc psp :: .ident id2 isp :: rest2 =>
            if c = '~' ∧ id2 = ast.ident then
              .ident (t ++ toString i) sp :: ast.expand_index i rest2
            else
              .ident t sp :: ast.expand_index i
                (.punct c spc psp :: .ident id2 isp :: rest2)
        | rest => .ident t sp :: ast.expand_index i rest
  | .punct c spc sp :: rest => .punct c spc sp :: ast.expand_index i rest
  | .lit t sp :: rest => .lit t sp :: ast.expand_index i rest

/-- `SeqAst::expand_tree`: the per-token step of the index walker, taking
the current token and the remaining iterator, and returning the tokens
produced together with the (possibly advanced) remaining iterator. -/
def expand_tree (ast : SeqAst) (tt : TokenTree) (itr : TokenStream) (i : Nat) :
    TokenStream × TokenStream :=
  match tt with
  | .group d s sp => ([.group d (ast.expand_index i s) sp], itr)
  | .ident t sp =>
      if t = ast.ident then
        ([.lit (toString i) sp], itr)
      else
        match itr with
        | .punct c spc psp :: .ident id2 isp :: rest2 =>
            if c = '~' ∧ id2 = ast.ident then
              ([.ident (t ++ toString i) sp], rest2)
            else
              ([.ident t sp], .punct c spc psp :: .ident id2 isp :: rest2)
        | itr => ([.ident t sp], itr)
  | tt => ([tt], itr)

/-- `SeqAst::expand_range`: on a range error, emit the compile error;
otherwise concatenate one `expand_index` pass per index, ascending. -/
def expand_range (ast : SeqAst) (stream : TokenStream) : TokenStream :=
  match ast.range with
  | .error err => err.intoCompileError
  | .ok range => (range.map (fun i => ast.expand_index i stream)).flatten

/-- `SeqAst::expand_sections` fused with its helper `expand_section`:
scan a stream for section markers `#( ... )*`, returning the rewritten
stream and whether a marker was found anywhere (including inside nested
groups).  Groups are recursively scanned and rebuilt with the same
delimiter and span; a `#` punctuation whose two lookahead tokens are a
parenthesis group and a `*` punctuation is a marker: the three tokens
are replaced by `expand_range` of the group's interior and the scan
jumps past them; all other tokens pass through unchanged. -/
def expand_sections (ast : SeqAst) : TokenStream → TokenStream × Bool
  | [] => ([], false)
  | .group d s sp :: rest =>
      let a := ast.expand_sections s
      let b := ast.expand_sections rest
      (.group d a.1 sp :: b.1, a.2 || b.2)
  | .punct c spc sp :: rest =>
      if c = '#' then
        match rest with
        | .group .parenthesis g gsp :: .punct c2 spc2 sp2 :: rest2 =>
            if c2 = '*' then
              let b := ast.expand_sections rest2
              (ast.expand_range g ++ b.1, true)
            else
              let b := ast.expand_sections
                (.group .parenthesis g gsp :: .punct c2 spc2 sp2 :: rest2)
              (.punct c spc sp :: b.1, b.2)
        | rest =>
            let b := ast.expand_sections rest
            (.punct c spc sp :: b.1, b.2)
      else
        let b := ast.expand_sections rest
        (.punct c spc sp :: b.1, b.2)
  | tt :: rest =>
      let b := ast.expand_sections rest
      (tt :: b.1, b.2)

/-- `SeqAst::expand_section`: the per-token step of the section scanner,
taking the current token and the remaining iterator, and returning the
tokens produced, the found flag, and the (possibly advanced) remaining
iterator. -/
def expand_section (ast : SeqAst) (tt : TokenTree) (itr : TokenStream) :
    TokenStream × Bool × TokenStream :=
  match tt with
  | .group d s sp =>
      let a := ast.expand_sections s
      ([.group d a.1 sp], a.2, itr)
  | .punct c spc sp =>
      if c = '#' then
        match itr with
        | .group .parenthesis g gsp :: .punct c2 spc2 sp2 :: rest2 =>
            if c2 = '*' then
              (ast.expand_range g, true, rest2)
            else
              ([.punct c spc sp], false,
                .group .parenthesis g gsp :: .punct c2 spc2 sp2 :: rest2)
        | itr => ([.punct c spc sp], false, itr)
      else
        ([.punct c spc sp], false, itr)
  | tt => ([tt], false, itr)

/-- `SeqAst::expand`: scan for sections; if none were found anywhere,
fall back to expanding the whole body once per index. -/
def expand (ast : SeqAst) : TokenStream :=
  let r := ast.expand_sections ast.content
  if !r.2 then ast.expand_range ast.content else r.1

end SeqAst

/-- Lookahead test of the index walker: does the remaining stream start
with the two-token tail `~ <binding>` of a splice pattern? -/
def SeqAst.spliceTail (ast : SeqAst) : TokenStream → Bool
  | .punct c _ _ :: .ident id2 _ :: _ => c == '~' && id2 == ast.ident
  | _ => false

/-- No identifier anywhere in the stream (including inside nested
groups) has the given text. -/
def noBindingIdent (name : String) : TokenStream → Bool
  | [] => true
  | .ident t _ :: rest => t != name && noBindingIdent name rest
  | .group _ s _ :: rest => noBindingIdent name s && noBindingIdent name rest
  | .punct _ _ _ :: rest => noBindingIdent name rest
  | .lit _ _ :: rest => noBindingIdent name rest

/-- `k` nested groups (delimiter `d`, span `sp`) wrapped around a
stream. -/
def nestG (d : Delimiter) (sp : Nat) : Nat → TokenStream → TokenStream
  | 0, s => s
  | k + 1, s => [.group d (nestG d sp k s) sp]

/-- Lookahead test of the section scanner: does the remaining stream
start with the two-token tail `( ... ) *` of a section marker? -/
def isMarkerTail : TokenStream → Bool
  | .group .parenthesis _ _ :: .punct c2 _ _ :: _ => c2 == '*'
  | _ => false

/-- Concrete invocation `seq!(N in 1..4 { N })`. -/
def astW1 : SeqAst :=
  { ident := "N", fromLit := ⟨"1", 10⟩, toLit := ⟨"4", 11⟩,
    inclusive := false, content := [.ident "N" 12] }

/-- Inner content `item~N ,` of the marked section of `astW2`. -/
def innerW2 : TokenStream :=
  [.ident "item" 20, .punct '~' .alone 21, .ident "N" 22,
   .punct ',' .alone 23]

/-- Concrete invocation `seq!(N in 1..=2 { [ #( item~N, )* ] })`. -/
def astW2 : SeqAst :=
  { ident := "N", fromLit := ⟨"1", 30⟩, toLit := ⟨"2", 31⟩,
    inclusive := true,
    content := nestG .bracket 40 1
      (.punct '#' .alone 41 :: .group .parenthesis innerW2 42
        :: .punct '*' .alone 43 :: []) }

/-- Concrete invocation with an invalid range: `seq!(N in 10..3 { N })`. -/
def astW3 : SeqAst :=
  { ident := "N", fromLit := ⟨"10", 50⟩, toLit := ⟨"3", 51⟩,
    inclusive := false, content := [.ident "N" 52] }

/-- Concrete invocation whose end literal `18446744073709551616` does
not fit in `u64`, with a marked section after an ordinary token. -/
def astW4 : SeqAst :=
  { ident := "N", fromLit := ⟨"0", 60⟩,
    toLit := ⟨"18446744073709551616", 61⟩, inclusive := false,
    content := [.ident "x" 62, .punct '#' .alone 63,
      .group .parenthesis [] 64, .punct '*' .alone 65] }

/-- Concrete invocation `seq!(N in 0..3 { f~N(); })`. -/
def astC5 : SeqAst :=
  { ident := "N", fromLit := ⟨"0", 70⟩, toLit := ⟨"3", 71⟩,
    inclusive := false,
    content := [.ident "f" 72, .punct '~' .alone 73, .ident "N" 74,
      .group .parenthesis [] 75, .punct ';' .alone 76] }

/-- Concrete invocation `seq!(N in 5..5 { N })` (empty exclusive
range). -/
def astW9 : SeqAst :=
  { ident := "N", fromLit := ⟨"5", 80⟩, toLit := ⟨"5", 81⟩,
    inclusive := false, content := [.ident "N" 82] }

/-- Concrete invocation with an inclusive range ending at `2^64 - 1`:
`seq!(N in 18446744073709551615..=18446744073709551615 { x })`. -/
def astOverflow : SeqAst :=
  { ident := "N", fromLit := ⟨"18446744073709551615", 1⟩,
    toLit := ⟨"18446744073709551615", 2⟩, inclusive := true,
    content := [.ident "x" 0] }

/-- Concrete invocation `seq!(N in 0..=18446744073709551615 { })`. -/
def astW10 : SeqAst :=
  { ident := "N", fromLit := ⟨"0", 90⟩,
    toLit := ⟨"18446744073709551615", 91⟩, inclusive := true,
    content := [] }

namespace SeqAst

/-- The fused walker agrees with the `expand_tree` per-token step: one
loop iteration produces `expand_tree`'s tokens and continues on its
(possibly advanced) iterator. -/
theorem expand_index_eq_tree_step (ast : SeqAst) (tt : TokenTree)
    (itr : TokenStream) (i : Nat) :
    ast.expand_index i (tt :: itr)
      = (ast.expand_tree tt itr i).1
          ++ ast.expand_index i (ast.expand_tree tt itr i).2 := by
  rw [SeqAst.expand_index.eq_def]
  cases tt with
  | group d s sp => simp [expand_tree]
  | ident t sp =>
      by_cases ht : t = ast.ident
      · simp [expand_tree, ht]
      · rcases itr with - | ⟨tt2, - | ⟨tt3, rest⟩⟩
        · simp [expand_tree, ht]
        · cases tt2 <;> simp [expand_tree, ht]
        · cases tt2 <;> cases tt3 <;> simp [expand_tree, ht] <;>
            split_ifs <;> simp
  | punct c spc sp => simp [expand_tree]
  | lit t sp => simp [expand_tree]

/-- The fused scanner agrees with the `expand_section` per-token step:
one loop iteration produces `expand_section`'s tokens, ors in its found
flag, and continues on its (possibly advanced) iterator. -/
theorem expand_sections_eq_section_step (ast : SeqAst) (tt : TokenTree)
    (itr : TokenStream) :
    ast.expand_sections (tt :: itr)
      = ((ast.expand_section tt itr).1
            ++ (ast.expand_sections (ast.expand_section tt itr).2.2).1,
          (ast.expand_section tt itr).2.1
            || (ast.expand_sections (ast.expand_section tt itr).2.2).2) := by
  rw [SeqAst.expand_sections.eq_def]
  cases tt with
  | group d s sp => simp [expand_section]
  | ident t sp => simp [expand_section]
  | lit t sp => simp [expand_section]
  | punct c spc sp =>
      by_cases hc : c = '#'
      · subst hc
        rcases itr with - | ⟨tt2, - | ⟨tt3, rest⟩⟩
        · simp [expand_section]
        · cases tt2 <;> simp [expand_section]
        · cases tt2 with
          | group d2 g gsp =>
              cases d2 <;> cases tt3 <;> simp [expand_section] <;>
                split_ifs <;> simp
          | ident t2 sp2 => cases tt3 <;> simp [expand_section]
          | punct c2 spc2 sp2 => cases tt3 <;> simp [expand_section]
          | lit t2 sp2 => cases tt3 <;> simp [expand_section]
      · simp [expand_section, hc]

/-- Scanner unfolding: an identifier head passes through. -/
theorem expand_sections_ident (ast : SeqAst) (t : String) (sp : Nat)
    (rest : TokenStream) :
    ast.expand_sections (.ident t sp :: rest)
      = (.ident t sp :: (ast.expand_sections rest).1,
         (ast.expand_sections rest).2) :=
  SeqAst.expand_sections.eq_5 ast _ _
    (fun _ _ _ h => nomatch h) (fun _ _ _ h => nomatch h)

/-- Scanner unfolding: a literal head passes through. -/
theorem expand_sections_lit (ast : SeqAst) (t : String) (sp : Nat)
    (rest : TokenStream) :
    ast.expand_sections (.lit t sp :: rest)
      = (.lit t sp :: (ast.expand_sections rest).1,
         (ast.expand_sections rest).2) :=
  SeqAst.expand_sections.eq_5 ast _ _
    (fun _ _ _ h => nomatch h) (fun _ _ _ h => nomatch h)

/-- Scanner unfolding: a punctuation head that does not start a
confirmed section marker passes through. -/
theorem expand_sections_punct (ast : SeqAst) (c : Char) (spc : Spacing)
    (sp : Nat) (rest : TokenStream)
    (h : c ≠ '#' ∨ isMarkerTail rest = false) :
    ast.expand_sections (.punct c spc sp :: rest)
      = (.punct c spc sp :: (ast.expand_sections rest).1,
         (ast.expand_sections rest).2) := by
  rw [SeqAst.expand_sections.eq_def]
  rcases h with hc | hm
  · simp [hc]
  · by_cases hc : c = '#'
    · simp only [hc, if_true]
      split
      · next g gsp c2 spc2 sp2 rest2 =>
          simp [isMarkerTail] at hm
          simp [hm]
      · rfl
    · simp [hc]

/-- Scanner unfolding: a confirmed section marker `#( ... )*` is
replaced by the range expansion of the group's interior, and the found
flag is set. -/
theorem expand_sections_marker (ast : SeqAst) (spc : Spacing) (sp : Nat)
    (g : TokenStream) (gsp : Nat) (spc2 : Spacing) (sp2 : Nat)
    (rest2 : TokenStream) :
    ast.expand_sections
        (.punct '#' spc sp :: .group .parenthesis g gsp
          :: .punct '*' spc2 sp2 :: rest2)
      = (ast.expand_range g ++ (ast.expand_sections rest2).1, true) := by
  rw [SeqAst.expand_sections.eq_3]
  simp

/-- A stream whose tail is not of the two-token marker-tail shape fails
the `isMarkerTail` test. -/
theorem isMarkerTail_false_of_mismatch (rest : TokenStream)
    (h : ∀ (g : TokenStream) (gsp : Nat) (c2 : Char) (spc2 : Spacing)
        (sp2 : Nat) (rest2 : TokenStream),
        rest = .group .parenthesis g gsp :: .punct c2 spc2 sp2 :: rest2 →
          False) :
    isMarkerTail rest = false := by
  rcases rest with - | ⟨a, - | ⟨b, r⟩⟩
  · simp [isMarkerTail]
  · cases a <;> simp [isMarkerTail]
  · cases a with
    | group d g gsp =>
        cases d with
        | parenthesis =>
            cases b with
            | punct c2 spc2 sp2 => exact absurd rfl (h g gsp c2 spc2 sp2 r)
            | group d2 s2 sp2 => simp [isMarkerTail]
            | ident t2 sp2 => simp [isMarkerTail]
            | lit t2 sp2 => simp [isMarkerTail]
        | brace => simp [isMarkerTail]
        | bracket => simp [isMarkerTail]
        | none => simp [isMarkerTail]
    | ident t2 sp2 => simp [isMarkerTail]
    | punct c2 spc2 sp2 => simp [isMarkerTail]
    | lit t2 sp2 => simp [isMarkerTail]

/-- Frame property of the section scanner: if no marker was found
anywhere in a stream, the scan returns the stream unchanged. -/
theorem expand_sections_frame (ast : SeqAst) :
    ∀ s : TokenStream, (ast.expand_sections s).2 = false →
      (ast.expand_sections s).1 = s := by
  intro s
  induction s using SeqAst.expand_sections.induct with
  | ast => exact ast
  | case1 => intro h; simp [expand_sections]
  | case2 d s sp rest ihs ihr =>
      intro h
      rw [SeqAst.expand_sections.eq_2] at h ⊢
      simp only [Bool.or_eq_false_iff] at h
      simp [ihs h.1, ihr h.2]
  | case3 spc sp g gsp spc2 sp2 rest2 ih =>
      intro h
      rw [expand_sections_marker] at h
      simp at h
  | case4 spc sp g gsp c2 spc2 sp2 rest2 hc2 ih =>
      intro h
      have hp := expand_sections_punct ast '#' spc sp
        (.group .parenthesis g gsp :: .punct c2 spc2 sp2 :: rest2)
        (Or.inr (by simp [isMarkerTail, hc2]))
      rw [hp] at h ⊢
      simp at h ⊢
      exact ih h
  | case5 spc sp rest hmis ih =>
      intro h
      have hp := expand_sections_punct ast '#' spc sp rest
        (Or.inr (isMarkerTail_false_of_mismatch rest hmis))
      rw [hp] at h ⊢
      simp at h ⊢
      exact ih h
  | case6 c spc sp rest hc ih =>
      intro h
      rw [expand_sections_punct ast c spc sp rest (Or.inl hc)] at h ⊢
      simp at h ⊢
      exact ih h
  | case7 tt rest hg hp ih =>
      intro h
      cases tt with
      | group d s sp => exact absurd rfl (hg d s sp)
      | punct c spc sp => exact absurd rfl (hp c spc sp)
      | ident t sp =>
          rw [expand_sections_ident] at h ⊢
          simp at h ⊢
          exact ih h
      | lit t sp =>
          rw [expand_sections_lit] at h ⊢
          simp at h ⊢
          exact ih h

/-- Appending a `#`-headed continuation to a mismatching tail cannot
create a marker tail. -/
theorem isMarkerTail_append_hash (rest : TokenStream) (spc : Spacing)
    (sp : Nat) (tail : TokenStream)
    (hmis : ∀ (g : TokenStream) (gsp : Nat) (c2 : Char) (spc2 : Spacing)
        (sp2 : Nat) (rest2 : TokenStream),
        rest = .group .parenthesis g gsp :: .punct c2 spc2 sp2 :: rest2 →
          False) :
    isMarkerTail (rest ++ .punct '#' spc sp :: tail) = false := by
  rcases rest with - | ⟨a, - | ⟨b, r⟩⟩
  · simp [isMarkerTail]
  · cases a with
    | group d g gsp => cases d <;> simp [isMarkerTail]
    | ident t2 sp2 => simp [isMarkerTail]
    | punct c2 spc2 sp2 => simp [isMarkerTail]
    | lit t2 sp2 => simp [isMarkerTail]
  · cases a with
    | group d g gsp =>
        cases d with
        | parenthesis =>
            cases b with
            | punct c2 spc2 sp2 => exact absurd rfl (hmis g gsp c2 spc2 sp2 r)
            | group d2 s2 sp2 => simp [isMarkerTail]
            | ident t2 sp2 => simp [isMarkerTail]
            | lit t2 sp2 => simp [isMarkerTail]
        | brace => simp [isMarkerTail]
        | bracket => simp [isMarkerTail]
        | none => simp [isMarkerTail]
    | ident t2 sp2 => simp [isMarkerTail]
    | punct c2 spc2 sp2 => simp [isMarkerTail]
    | lit t2 sp2 => simp [isMarkerTail]

/-- Scanning a marker-free prefix followed by a `#`-headed continuation
processes the prefix unchanged and continues on the continuation: the
`#` head of the continuation guarantees that no marker pattern can
straddle the boundary. -/
theorem expand_sections_append_hash (ast : SeqAst) (spc0 : Spacing)
    (sp0 : Nat) (tail : TokenStream) :
    ∀ pre : TokenStream, (ast.expand_sections pre).2 = false →
      ast.expand_sections (pre ++ .punct '#' spc0 sp0 :: tail)
        = (pre ++ (ast.expand_sections (.punct '#' spc0 sp0 :: tail)).1,
           (ast.expand_sections (.punct '#' spc0 sp0 :: tail)).2) := by
  intro pre
  induction pre using SeqAst.expand_sections.induct with
  | ast => exact ast
  | case1 => intro h; simp
  | case2 d s sp rest ihs ihr =>
      intro h
      rw [SeqAst.expand_sections.eq_2] at h
      simp only [Bool.or_eq_false_iff] at h
      rw [List.cons_append, SeqAst.expand_sections.eq_2,
          expand_sections_frame ast s h.1, ihr h.2]
      simp [h.1]
  | case3 spc sp g gsp spc2 sp2 rest2 ih =>
      intro h
      rw [expand_sections_marker] at h
      simp at h
  | case4 spc sp g gsp c2 spc2 sp2 rest2 hc2 ih =>
      intro h
      rw [expand_sections_punct ast '#' spc sp _
        (Or.inr (by simp [isMarkerTail, hc2]))] at h
      simp only at h
      rw [List.cons_append,
          expand_sections_punct ast '#' spc sp _
            (Or.inr (by simp [isMarkerTail, hc2])),
          show (TokenTree.group .parenthesis g gsp
              :: TokenTree.punct c2 spc2 sp2 :: rest2)
              ++ TokenTree.punct '#' spc0 sp0 :: tail
            = (TokenTree.group .parenthesis g gsp
              :: TokenTree.punct c2 spc2 sp2 :: rest2)
              ++ TokenTree.punct '#' spc0 sp0 :: tail from rfl,
          ih h]
      simp
  | case5 spc sp rest hmis ih =>
      intro h
      rw [expand_sections_punct ast '#' spc sp rest
        (Or.inr (isMarkerTail_false_of_mismatch rest hmis))] at h
      simp only at h
      rw [List.cons_append,
          expand_sections_punct ast '#' spc sp _
            (Or.inr (isMarkerTail_append_hash rest spc0 sp0 tail hmis)),
          ih h]
      simp
  | case6 c spc sp rest hc ih =>
      intro h
      rw [expand_sections_punct ast c spc sp rest (Or.inl hc)] at h
      simp only at h
      rw [List.cons_append,
          expand_sections_punct ast c spc sp _ (Or.inl hc), ih h]
      simp
  | case7 tt rest hg hp ih =>
      intro h
      cases tt with
      | group d s sp => exact absurd rfl (hg d s sp)
      | punct c spc sp => exact absurd rfl (hp c spc sp)
      | ident t sp =>
          rw [expand_sections_ident] at h
          simp only at h
          rw [List.cons_append, expand_sections_ident, ih h]
          simp
      | lit t sp =>
          rw [expand_sections_lit] at h
          simp only at h
          rw [List.cons_append, expand_sections_lit, ih h]
          simp

/-- `SeqAst::range` on parseable bounds `s ≤ e` that do not overflow:
the index list is `s, s+1, …` up to the (exclusive or inclusive)
upper bound. -/
theorem range_ok (ast : SeqAst) (s e : Nat)
    (hs : parseU64 ast.fromLit.digits = .ok s)
    (he : parseU64 ast.toLit.digits = .ok e)
    (hse : s ≤ e) (hof : ast.inclusive = true → e + 1 < 2 ^ 64) :
    ast.range
      = .ok (List.range' s ((if ast.inclusive then e + 1 else e) - s)) := by
  unfold range
  rw [hs, he]
  simp only
  rw [if_neg (by omega)]
  cases hinc : ast.inclusive with
  | false => simp
  | true => rw [if_pos rfl, Nat.mod_eq_of_lt (hof hinc)]; simp

/-- `SeqAst::expand_range` on parseable bounds `s ≤ e` that do not
overflow: the concatenation of one `expand_index` pass per index, in
ascending order. -/
theorem expand_range_ok (ast : SeqAst) (stream : TokenStream) (s e : Nat)
    (hs : parseU64 ast.fromLit.digits = .ok s)
    (he : parseU64 ast.toLit.digits = .ok e)
    (hse : s ≤ e) (hof : ast.inclusive = true → e + 1 < 2 ^ 64) :
    ast.expand_range stream
      = ((List.range' s ((if ast.inclusive then e + 1 else e) - s)).map
          (fun i => ast.expand_index i stream)).flatten := by
  unfold expand_range
  rw [range_ok ast s e hs he hse hof]

/-- The section scanner commutes with wrapping in nested groups: the
rebuilt groups keep their delimiter and span, and the found flag is
that of the inner stream. -/
theorem expand_sections_nestG (ast : SeqAst) (d : Delimiter) (sp : Nat) :
    ∀ (k : Nat) (s : TokenStream),
      ast.expand_sections (nestG d sp k s)
        = (nestG d sp k (ast.expand_sections s).1,
           (ast.expand_sections s).2) := by
  intro k
  induction k with
  | zero => intro s; simp [nestG]
  | succ k ih =>
      intro s
      show ast.expand_sections (.group d (nestG d sp k s) sp :: [])
        = (nestG d sp (k + 1) (ast.expand_sections s).1,
           (ast.expand_sections s).2)
      rw [SeqAst.expand_sections.eq_2, ih]
      simp [expand_sections, nestG]

/-- The index walker commutes with wrapping in nested groups: the
rebuilt groups keep their delimiter and span. -/
theorem expand_index_nestG (ast : SeqAst) (i : Nat) (d : Delimiter)
    (sp : Nat) :
    ∀ (k : Nat) (s : TokenStream),
      ast.expand_index i (nestG d sp k s)
        = nestG d sp k (ast.expand_index i s) := by
  intro k
  induction k with
  | zero => intro s; simp [nestG]
  | succ k ih =>
      intro s
      show ast.expand_index i (.group d (nestG d sp k s) sp :: [])
        = nestG d sp (k + 1) (ast.expand_index i s)
      rw [SeqAst.expand_index.eq_2, ih]
      simp [expand_index, nestG]

/-- Walker unfolding: an identifier equal to the binding becomes the
unsuffixed decimal literal of the index, at the identifier's span. -/
theorem expand_index_binding (ast : SeqAst) (i : Nat) (sp : Nat)
    (rest : TokenStream) :
    ast.expand_index i (.ident ast.ident sp :: rest)
      = .lit (toString i) sp :: ast.expand_index i rest := by
  rw [SeqAst.expand_index.eq_def]
  simp

/-- Walker unfolding: the splice pattern `ident ~ binding` (identifier
not equal to the binding) becomes a single identifier with the decimal
index appended, at the original identifier's span, consuming the two
lookahead tokens. -/
theorem expand_index_splice (ast : SeqAst) (i : Nat) (t : String)
    (sp : Nat) (spc : Spacing) (psp : Nat) (isp : Nat)
    (rest2 : TokenStream) (ht : t ≠ ast.ident) :
    ast.expand_index i
        (.ident t sp :: .punct '~' spc psp :: .ident ast.ident isp :: rest2)
      = .ident (t ++ toString i) sp :: ast.expand_index i rest2 := by
  rw [SeqAst.expand_index.eq_3]
  simp [ht]

/-- Walker unfolding: an identifier not equal to the binding and not
followed by the splice tail passes through unchanged. -/
theorem expand_index_ident_pass (ast : SeqAst) (i : Nat) (t : String)
    (sp : Nat) (rest : TokenStream) (ht : t ≠ ast.ident)
    (hns : ast.spliceTail rest = false) :
    ast.expand_index i (.ident t sp :: rest)
      = .ident t sp :: ast.expand_index i rest := by
  rcases rest with - | ⟨a, - | ⟨b, r⟩⟩
  · rw [SeqAst.expand_index.eq_4 _ _ _ _ _
      (by intro c spc psp id2 isp r2 hh; simp at hh)]
    simp [ht]
  · rw [SeqAst.expand_index.eq_4 _ _ _ _ _
      (by intro c spc psp id2 isp r2 hh; simp at hh)]
    simp [ht]
  · cases a with
    | punct c spc psp =>
        cases b with
        | ident id2 isp =>
            have hni : ¬(c = '~' ∧ id2 = ast.ident) := by
              rintro ⟨h1, h2⟩
              simp [SeqAst.spliceTail, h1, h2] at hns
            rw [SeqAst.expand_index.eq_3, if_neg ht, if_neg hni]
        | group d2 s2 sp2 =>
            rw [SeqAst.expand_index.eq_4 _ _ _ _ _
              (by intro c' spc' psp' id2 isp r2 hh; simp at hh)]
            simp [ht]
        | punct c2 spc2 sp2 =>
            rw [SeqAst.expand_index.eq_4 _ _ _ _ _
              (by intro c' spc' psp' id2 isp r2 hh; simp at hh)]
            simp [ht]
        | lit t2 sp2 =>
            rw [SeqAst.expand_index.eq_4 _ _ _ _ _
              (by intro c' spc' psp' id2 isp r2 hh; simp at hh)]
            simp [ht]
    | group d2 s2 sp2 =>
        rw [SeqAst.expand_index.eq_4 _ _ _ _ _
          (by intro c' spc' psp' id2 isp r2 hh; simp at hh)]
        simp [ht]
    | ident t2 sp2 =>
        rw [SeqAst.expand_index.eq_4 _ _ _ _ _
          (by intro c' spc' psp' id2 isp r2 hh; simp at hh)]
        simp [ht]
    | lit t2 sp2 =>
        rw [SeqAst.expand_index.eq_4 _ _ _ _ _
          (by intro c' spc' psp' id2 isp r2 hh; simp at hh)]
        simp [ht]

/-- Pass-through of the index walker: a stream containing no occurrence
of the binding identifier (at any nesting depth) is returned unchanged,
for every index. -/
theorem expand_index_no_binding (ast : SeqAst) (i : Nat) :
    ∀ s : TokenStream, noBindingIdent ast.ident s = true →
      ast.expand_index i s = s := by
  intro s
  induction s using SeqAst.expand_index.induct with
  | ast => exact ast
  | i => exact i
  | case1 => intro h; simp [expand_index]
  | case2 d s sp rest ihs ihr =>
      intro h
      simp only [noBindingIdent, Bool.and_eq_true] at h
      rw [SeqAst.expand_index.eq_2, ihs h.1, ihr h.2]
  | case3 sp rest ih =>
      intro h
      simp [noBindingIdent] at h
  | case4 t sp ht c spc psp id2 isp rest2 hci ih =>
      intro h
      simp [noBindingIdent, hci.2] at h
  | case5 t sp ht c spc psp id2 isp rest2 hci ih =>
      intro h
      rw [SeqAst.expand_index.eq_3, if_neg ht, if_neg hci]
      simp only [noBindingIdent, Bool.and_eq_true] at h
      exact congrArg (TokenTree.ident t sp :: ·)
        (ih (by simp [noBindingIdent, h.2.1, h.2.2]))
  | case6 t sp ht rest hmis ih =>
      intro h
      simp only [noBindingIdent, Bool.and_eq_true] at h
      rw [SeqAst.expand_index.eq_4 _ _ _ _ _ hmis, if_neg ht, ih h.2]
  | case7 c spc sp rest ih =>
      intro h
      simp only [noBindingIdent] at h
      rw [SeqAst.expand_index.eq_5, ih h]
  | case8 t sp rest ih =>
      intro h
      simp only [noBindingIdent] at h
      rw [SeqAst.expand_index.eq_6, ih h]

end SeqAst

open SeqAst

/-- The count of indices produced by a valid, non-overflowing range,
rewritten from the upper-bound form to the copy-count form. -/
theorem upper_sub_eq (inc : Bool) (s e : Nat) (hse : s ≤ e) :
    (if inc then e + 1 else e) - s = if inc then e - s + 1 else e - s := by
  cases inc <;> simp <;> omega

/-- C3: for parseable bounds with start > end, `range` fails with the
`"invalid range"` error anchored at the start literal's span, and
`expand_range` emits exactly the (nonempty) embedded compile-error
token payload instead of any expansion — it cannot panic and does not
silently return an empty or garbage stream. -/
theorem seq_c3_invalid_range (ast : SeqAst) (s e : Nat)
    (hs : parseU64 ast.fromLit.digits = .ok s)
    (he : parseU64 ast.toLit.digits = .ok e)
    (hgt : e < s) :
    ast.range = .error (.invalidRange ast.fromLit.span)
    ∧ (∀ stream, ast.expand_range stream
        = (SeqError.invalidRange ast.fromLit.span).intoCompileError)
    ∧ (SeqError.invalidRange ast.fromLit.span).message = "invalid range"
    ∧ (SeqError.invalidRange ast.fromLit.span).span = ast.fromLit.span
    ∧ (SeqError.invalidRange ast.fromLit.span).intoCompileError ≠ [] := by
  have hr : ast.range = .error (.invalidRange ast.fromLit.span) := by
    unfold SeqAst.range
    rw [hs, he]
    simp only
    rw [if_pos (by omega)]
  refine ⟨hr, fun stream => ?_, rfl, rfl,
    by simp [SeqError.intoCompileError]⟩
  unfold SeqAst.expand_range
  rw [hr]

/-- C3 witness: the spec scenario `N in 10..3` yields the diagnostic
anchored at the span of the literal `10`. -/
theorem seq_c3_invalid_range_witness :
    astW3.range = .error (.invalidRange astW3.fromLit.span)
    ∧ (∀ stream, astW3.expand_range stream
        = (SeqError.invalidRange astW3.fromLit.span).intoCompileError)
    ∧ (SeqError.invalidRange astW3.fromLit.span).message = "invalid range"
    ∧ (SeqError.invalidRange astW3.fromLit.span).span = astW3.fromLit.span
    ∧ (SeqError.invalidRange astW3.fromLit.span).intoCompileError ≠ [] :=
  seq_c3_invalid_range astW3 10 3 rfl rfl (by omega)

/-- C6: an identifier token whose text equals the binding name is
replaced by an unsuffixed integer literal token carrying the decimal
value of the index `i`, at the original identifier's span. -/
theorem seq_c6_binding_to_literal (ast : SeqAst) (i : Nat) (sp : Nat)
    (rest : TokenStream) :
    ast.expand_index i (.ident ast.ident sp :: rest)
      = .lit (toString i) sp :: ast.expand_index i rest :=
  expand_index_binding ast i sp rest

/-- C7: splice rewriting is invariant under nesting depth — for all
`k`, the index walker applied to a stream wrapped in `k` nested groups
equals the walk of the inner stream wrapped back in the same `k`
groups, each rebuilt group keeping its delimiter and span. -/
theorem seq_c7_nesting_invariance (ast : SeqAst) (i : Nat)
    (d : Delimiter) (sp : Nat) (k : Nat) (s : TokenStream) :
    ast.expand_index i (nestG d sp k s)
      = nestG d sp k (ast.expand_index i s) :=
  expand_index_nestG ast i d sp k s

/-- C9: for equal parseable bounds with the exclusive form, the range
is legal and empty and the expansion of any stream is the empty token
sequence, not an error. -/
theorem seq_c9_empty_range (ast : SeqAst) (n : Nat)
    (hs : parseU64 ast.fromLit.digits = .ok n)
    (he : parseU64 ast.toLit.digits = .ok n)
    (hincl : ast.inclusive = false) :
    ast.range = .ok [] ∧ ∀ stream, ast.expand_range stream = [] := by
  have hr : ast.range = .ok [] := by
    have h := range_ok ast n n hs he le_rfl
      (fun h => absurd h (by simp [hincl]))
    rw [hincl] at h
    simpa using h
  refine ⟨hr, fun stream => ?_⟩
  unfold SeqAst.expand_range
  rw [hr]
  simp

/-- C9 witness: the spec scenario `N in 5..5` yields the empty
sequence. -/
theorem seq_c9_empty_range_witness :
    astW9.range = .ok [] ∧ ∀ stream, astW9.expand_range stream = [] :=
  seq_c9_empty_range astW9 5 rfl rfl rfl

/-- C10: for an inclusive range with parseable bounds `s ≤ e`, the
upper bound is computed as `e + 1` in `u64` arithmetic (modulo `2^64`);
the range has `e - s + 1` indices exactly when `e + 1` does not
overflow, and at `e = 2^64 - 1` the wrapped upper bound makes the range
empty. -/
theorem seq_c10_inclusive_overflow (ast : SeqAst) (s e : Nat)
    (hincl : ast.inclusive = true)
    (hs : parseU64 ast.fromLit.digits = .ok s)
    (he : parseU64 ast.toLit.digits = .ok e)
    (hse : s ≤ e) :
    ast.range = .ok (List.range' s ((e + 1) % 2 ^ 64 - s))
    ∧ (e + 1 < 2 ^ 64 →
        (List.range' s ((e + 1) % 2 ^ 64 - s)).length = e - s + 1)
    ∧ (e = 2 ^ 64 - 1 → ast.range = .ok []) := by
  have hr : ast.range = .ok (List.range' s ((e + 1) % 2 ^ 64 - s)) := by
    unfold SeqAst.range
    rw [hs, he]
    simp only
    rw [if_neg (by omega), if_pos hincl]
  refine ⟨hr, ?_, ?_⟩
  · intro hlt
    rw [Nat.mod_eq_of_lt hlt]
    simp
    omega
  · intro hmax
    rw [hr]
    subst hmax
    have h0 : (2 ^ 64 - 1 + 1) % 2 ^ 64 = 0 := by
      have : (2 : Nat) ^ 64 - 1 + 1 = 2 ^ 64 := by omega
      rw [this, Nat.mod_self]
    rw [h0]
    simp

/-- C10 witness: `N in 0..=18446744073709551615` — the wrapped upper
bound yields the empty range. -/
theorem seq_c10_inclusive_overflow_witness :
    astW10.range
      = .ok (List.range' 0 ((18446744073709551615 + 1) % 2 ^ 64 - 0))
    ∧ (18446744073709551615 + 1 < 2 ^ 64 →
        (List.range' 0
          ((18446744073709551615 + 1) % 2 ^ 64 - 0)).length
          = 18446744073709551615 - 0 + 1)
    ∧ (18446744073709551615 = 2 ^ 64 - 1 → astW10.range = .ok []) :=
  seq_c10_inclusive_overflow astW10 0 18446744073709551615 rfl rfl rfl
    (Nat.zero_le _)

/-- C1 counterexample: for the valid inclusive range
`[2^64 - 1, 2^64 - 1]` the whole-body fallback produces zero copies,
not the `e - s + 1 = 1` copies the claim promises (the `u64` upper
bound `e + 1` wraps to `0`). -/
theorem seq_c1_counterexample :
    astOverflow.expand
      ≠ ((List.range' 18446744073709551615
            (18446744073709551615 - 18446744073709551615 + 1)).map
          (fun i => astOverflow.expand_index i astOverflow.content)).flatten := by
  have hrange : astOverflow.range = .ok [] := by rfl
  have hc : astOverflow.content = [.ident "x" 0] := rfl
  have hi : astOverflow.ident = "N" := rfl
  have hL : astOverflow.expand = [] := by
    simp [SeqAst.expand, SeqAst.expand_sections, SeqAst.expand_range,
      hrange, hc, hi]
  rw [hL]
  simp [SeqAst.expand_index, hc, hi, List.range']

/-- C1 (amended): for parseable bounds `s ≤ e` — with, for the
inclusive form, the additional precondition `e + 1 < 2^64` forced by
the `u64` upper-bound arithmetic — a body in which the scan found no
section marker is expanded by the whole-body fallback into exactly
`e - s` (exclusive) respectively `e - s + 1` (inclusive) concatenated
`expand_index` copies of the body, one per index in ascending order. -/
theorem seq_c1_whole_body_fallback (ast : SeqAst) (s e : Nat)
    (hs : parseU64 ast.fromLit.digits = .ok s)
    (he : parseU64 ast.toLit.digits = .ok e)
    (hse : s ≤ e)
    (hof : ast.inclusive = true → e + 1 < 2 ^ 64)
    (hnm : (ast.expand_sections ast.content).2 = false) :
    ast.expand
      = ((List.range' s (if ast.inclusive then e - s + 1 else e - s)).map
          (fun i => ast.expand_index i ast.content)).flatten
    ∧ (List.range' s
        (if ast.inclusive then e - s + 1 else e - s)).length
        = (if ast.inclusive then e - s + 1 else e - s) := by
  refine ⟨?_, by simp⟩
  show (if !(ast.expand_sections ast.content).2 then
      ast.expand_range ast.content
    else (ast.expand_sections ast.content).1) = _
  rw [hnm]
  show ast.expand_range ast.content = _
  rw [expand_range_ok ast ast.content s e hs he hse hof,
      upper_sub_eq ast.inclusive s e hse]

/-- C1 witness: `N in 1..4 { N }` expands to three copies. -/
theorem seq_c1_whole_body_fallback_witness :
    astW1.expand
      = ((List.range' 1 (if astW1.inclusive then 4 - 1 + 1 else 4 - 1)).map
          (fun i => astW1.expand_index i astW1.content)).flatten
    ∧ (List.range' 1
        (if astW1.inclusive then 4 - 1 + 1 else 4 - 1)).length
        = (if astW1.inclusive then 4 - 1 + 1 else 4 - 1) :=
  seq_c1_whole_body_fallback astW1 1 4 rfl rfl (by omega)
    (fun h => absurd h (by simp [astW1]))
    (by simp [astW1, SeqAst.expand_sections])

/-- C2: a stream consisting of a marker-free prefix, exactly one
section marker `#( inner )*`, and a marker-free suffix — wrapped in any
number of nested groups — scans to the prefix, followed by the
concatenation of the per-index expansions of `inner` in ascending
order, followed by the suffix, all unchanged tokens kept byte for byte,
and the found flag set. -/
theorem seq_c2_single_marker (ast : SeqAst) (pre post inner : TokenStream)
    (d : Delimiter) (nsp k : Nat) (spc1 : Spacing) (sp1 : Nat)
    (gsp : Nat) (spc2 : Spacing) (sp2 : Nat) (s e : Nat)
    (hs : parseU64 ast.fromLit.digits = .ok s)
    (he : parseU64 ast.toLit.digits = .ok e)
    (hse : s ≤ e) (hof : ast.inclusive = true → e + 1 < 2 ^ 64)
    (hpre : (ast.expand_sections pre).2 = false)
    (hpost : (ast.expand_sections post).2 = false) :
    ast.expand_sections
        (nestG d nsp k
          (pre ++ .punct '#' spc1 sp1 :: .group .parenthesis inner gsp
            :: .punct '*' spc2 sp2 :: post))
      = (nestG d nsp k
          (pre
            ++ ((List.range' s
                  (if ast.inclusive then e - s + 1 else e - s)).map
                (fun i => ast.expand_index i inner)).flatten
            ++ post), true) := by
  rw [expand_sections_nestG,
      expand_sections_append_hash ast spc1 sp1 _ pre hpre,
      expand_sections_marker,
      expand_sections_frame ast post hpost,
      expand_range_ok ast inner s e hs he hse hof,
      upper_sub_eq ast.inclusive s e hse]
  simp

/-- C2 witness: the spec scenario `N in 1..=2` with body
`[ #( item~N, )* ]` scans to `[ item1, item2, ]`. -/
theorem seq_c2_single_marker_witness :
    astW2.expand_sections
        (nestG .bracket 40 1
          ([] ++ .punct '#' .alone 41 :: .group .parenthesis innerW2 42
            :: .punct '*' .alone 43 :: []))
      = (nestG .bracket 40 1
          ([]
            ++ ((List.range' 1
                  (if astW2.inclusive then 2 - 1 + 1 else 2 - 1)).map
                (fun i => astW2.expand_index i innerW2)).flatten
            ++ []), true) :=
  seq_c2_single_marker astW2 [] [] innerW2 .bracket 40 1 .alone 41 42
    .alone 43 1 2 rfl rfl (by omega) (fun _ => by norm_num)
    (by simp [SeqAst.expand_sections])
    (by simp [SeqAst.expand_sections])

/-- C5: the splice pattern — an identifier different from the binding,
punctuation `~`, the binding identifier — is rewritten to the single
identifier obtained by appending the decimal index to the original
text, consuming the two lookahead tokens; an identifier not followed by
that pattern passes through unchanged; and the spec scenario
`N in 0..3 { f~N(); }` expands to `f0(); f1(); f2();` in ascending
order. -/
theorem seq_c5_splice (ast : SeqAst) (i : Nat) (t : String) (sp : Nat)
    (spc : Spacing) (psp isp : Nat) (rest rest2 : TokenStream)
    (ht : t ≠ ast.ident) (hns : ast.spliceTail rest = false) :
    (ast.expand_index i
        (.ident t sp :: .punct '~' spc psp
          :: .ident ast.ident isp :: rest2)
      = .ident (t ++ toString i) sp :: ast.expand_index i rest2)
    ∧ (ast.expand_index i (.ident t sp :: rest)
        = .ident t sp :: ast.expand_index i rest)
    ∧ astC5.expand
        = [.ident "f0" 72, .group .parenthesis [] 75,
           .punct ';' .alone 76,
           .ident "f1" 72, .group .parenthesis [] 75,
           .punct ';' .alone 76,
           .ident "f2" 72, .group .parenthesis [] 75,
           .punct ';' .alone 76] := by
  refine ⟨expand_index_splice ast i t sp spc psp isp rest2 ht,
    expand_index_ident_pass ast i t sp rest ht hns, ?_⟩
  have hrange : astC5.range = .ok [0, 1, 2] := by rfl
  have hc : astC5.content
      = [.ident "f" 72, .punct '~' .alone 73, .ident "N" 74,
         .group .parenthesis [] 75, .punct ';' .alone 76] := rfl
  have hi : astC5.ident = "N" := rfl
  simp [SeqAst.expand, SeqAst.expand_sections, SeqAst.expand_range,
    SeqAst.expand_index, hrange, hc, hi]
  exact ⟨by decide, by decide, by decide⟩

/-- C5 witness: instantiation at index 1 with identifier `g` and an
empty lookahead stream. -/
theorem seq_c5_splice_witness :
    (astC5.expand_index 1
        (.ident "g" 3 :: .punct '~' .alone 4
          :: .ident astC5.ident 5 :: [])
      = .ident ("g" ++ toString 1) 3 :: astC5.expand_index 1 [])
    ∧ (astC5.expand_index 1 (.ident "g" 3 :: [])
        = .ident "g" 3 :: astC5.expand_index 1 [])
    ∧ astC5.expand
        = [.ident "f0" 72, .group .parenthesis [] 75,
           .punct ';' .alone 76,
           .ident "f1" 72, .group .parenthesis [] 75,
           .punct ';' .alone 76,
           .ident "f2" 72, .group .parenthesis [] 75,
           .punct ';' .alone 76] :=
  seq_c5_splice astC5 1 "g" 3 .alone 4 5 [] [] (by decide) rfl

/-- C8: a stream containing no occurrence of the binding identifier
(and hence no splice pattern) is returned unchanged by the index walker
for every index value; and the walker is a pure function — equal
inputs give identical outputs. -/
theorem seq_c8_pass_through (ast : SeqAst) (i : Nat) (s : TokenStream)
    (h : noBindingIdent ast.ident s = true) :
    ast.expand_index i s = s
    ∧ (∀ (s' : TokenStream) (j : Nat), s' = s → j = i →
        ast.expand_index j s' = ast.expand_index i s) :=
  ⟨expand_index_no_binding ast i s h,
   fun _ _ hs hj => by rw [hs, hj]⟩

/-- C8 witness: a stream of an unrelated identifier, a literal and a
nested group passes through unchanged at index 9. -/
theorem seq_c8_pass_through_witness :
    (astC5.expand_index 9
        [.ident "a" 0, .lit "1" 1, .group .brace [.ident "b" 2] 3]
      = [.ident "a" 0, .lit "1" 1, .group .brace [.ident "b" 2] 3])
    ∧ (∀ (s' : TokenStream) (j : Nat),
        s' = [.ident "a" 0, .lit "1" 1,
              .group .brace [.ident "b" 2] 3] → j = 9 →
        astC5.expand_index j s'
          = astC5.expand_index 9
              [.ident "a" 0, .lit "1" 1,
               .group .brace [.ident "b" 2] 3]) :=
  seq_c8_pass_through astC5 9
    [.ident "a" 0, .lit "1" 1, .group .brace [.ident "b" 2] 3]
    (by simp [noBindingIdent, astC5])

/-- C4 counterexample: with an end literal that does not fit in `u64`
and a marked section, the invocation still produces output — the
untouched body tokens with an embedded compile-error payload — so the
failure is not terminal and something is produced. -/
theorem seq_c4_counterexample :
    astW4.expand
      = .ident "x" 62
          :: (SeqError.badIntegerLiteral 61
              "number too large to fit in target type").intoCompileError
    ∧ astW4.expand ≠ [] := by
  have hrange : astW4.range
      = .error (.badIntegerLiteral 61
          "number too large to fit in target type") := by rfl
  have hc : astW4.content
      = [.ident "x" 62, .punct '#' .alone 63,
         .group .parenthesis [] 64, .punct '*' .alone 65] := rfl
  have hi : astW4.ident = "N" := rfl
  have h1 : astW4.expand
      = .ident "x" 62
          :: (SeqError.badIntegerLiteral 61
              "number too large to fit in target type").intoCompileError := by
    simp [SeqAst.expand, SeqAst.expand_sections, SeqAst.expand_range,
      hrange, hc, hi]
  exact ⟨h1, by rw [h1]; simp⟩

/-- C4 (amended): an unparseable start or end literal makes `range`
fail with `badIntegerLiteral` carrying that literal's source span; no
per-index expansion happens, but the failure is not terminal — each
`expand_range` call site receives the embedded compile-error payload
(the same policy as an invalid range), so output is still produced. -/
theorem seq_c4_bad_integer_literal (ast : SeqAst) :
    (∀ m, parseU64 ast.fromLit.digits = .error m →
      ast.range = .error (.badIntegerLiteral ast.fromLit.span m)
      ∧ ∀ stream, ast.expand_range stream
          = (SeqError.badIntegerLiteral ast.fromLit.span m).intoCompileError
      ∧ (SeqError.badIntegerLiteral
          ast.fromLit.span m).intoCompileError ≠ [])
    ∧ (∀ f m, parseU64 ast.fromLit.digits = .ok f →
        parseU64 ast.toLit.digits = .error m →
        ast.range = .error (.badIntegerLiteral ast.toLit.span m)
        ∧ ∀ stream, ast.expand_range stream
            = (SeqError.badIntegerLiteral ast.toLit.span m).intoCompileError
        ∧ (SeqError.badIntegerLiteral
            ast.toLit.span m).intoCompileError ≠ []) := by
  constructor
  · intro m hm
    have hr : ast.range = .error (.badIntegerLiteral ast.fromLit.span m) := by
      unfold SeqAst.range
      rw [hm]
    refine ⟨hr, fun stream => ⟨?_, by simp [SeqError.intoCompileError]⟩⟩
    unfold SeqAst.expand_range
    rw [hr]
  · intro f m hf hm
    have hr : ast.range = .error (.badIntegerLiteral ast.toLit.span m) := by
      unfold SeqAst.range
      rw [hf, hm]
    refine ⟨hr, fun stream => ⟨?_, by simp [SeqError.intoCompileError]⟩⟩
    unfold SeqAst.expand_range
    rw [hr]

/-- C4 witness: the end literal of `astW4` does not fit in `u64`. -/
theorem seq_c4_bad_integer_literal_witness :
    astW4.range
      = .error (.badIntegerLiteral astW4.toLit.span
          "number too large to fit in target type")
    ∧ ∀ stream, astW4.expand_range stream
        = (SeqError.badIntegerLiteral astW4.toLit.span
            "number too large to fit in target type").intoCompileError
      ∧ (SeqError.badIntegerLiteral astW4.toLit.span
          "number too large to fit in target type").intoCompileError
          ≠ [] :=
  (seq_c4_bad_integer_literal astW4).2 0
    "number too large to fit in target type" rfl rfl

end Seq
